import Mathlib

/-!
# Verification of the session / history / context subsystem of mcp-meilisearch

Shallow embedding of the chat-orchestrator source file (the Express chat
handler with its in-process session store, history trimming and context
assembly) and of the search gateway (`searchNearDocs`).

JS `Map` is modelled as an insertion-ordered association list; `Map.set` on
an existing key replaces the value in place, otherwise appends.  JS string
`slice` is modelled on the character list of the string.  Timestamps are
integers (milliseconds).  JS falsiness of an optional string (absent,
`null`, or `""`) is modelled case by case.
-/

namespace Meili

/-- Models JS `String.prototype.slice(0, n)` (take the first `n` characters). -/
def jsSlice (s : String) (n : Nat) : String :=
  String.mk (s.data.take n)

/-- Models JS `Array.prototype.slice(-n)` (keep the last `n` elements). -/
def sliceLast (n : Nat) (l : List α) : List α :=
  l.drop (l.length - n)

/-- Source `role: "user" | "assistant"` from the `HistoryEntry` interface. -/
inductive Role where
  | user
  | assistant
deriving DecidableEq

/-- JS template-literal coercion of the role string union. -/
def roleString : Role → String
  | .user => "user"
  | .assistant => "assistant"

/-- Source `interface HistoryEntry { role; text }`. -/
structure HistoryEntry where
  role : Role
  text : String
deriving DecidableEq

/-- Source `interface ThreadData { entries; lastAccess }`. -/
structure ThreadData where
  entries : List HistoryEntry
  lastAccess : Int
deriving DecidableEq

/-- Source `const threads = new Map<string, ThreadData>()`: insertion-ordered map. -/
abbrev Store := List (String × ThreadData)

/-- Models `threads.get(key)` (first entry with the key; a JS `Map` has no duplicate
keys, so first-match lookup agrees with `Map.get`). -/
def Store.get (s : Store) (k : String) : Option ThreadData :=
  match s with
  | [] => none
  | (k', v) :: rest => if k' = k then some v else Store.get rest k

/-- Models `threads.set(key, value)`: replace in place when the key exists (a JS
`Map` keeps the original insertion position), otherwise append. -/
def Store.set (s : Store) (k : String) (v : ThreadData) : Store :=
  match s with
  | [] => [(k, v)]
  | (k', v') :: rest =>
      if k' = k then (k, v) :: rest else (k', v') :: Store.set rest k v

/-- Source `const MAX_HISTORY_ENTRIES = 4`. -/
def MAX_HISTORY_ENTRIES : Nat := 4

/-- Source `const MAX_HISTORY_CHAR = 200`. -/
def MAX_HISTORY_CHAR : Nat := 200

/-- Source `const THREAD_TTL_MS = 30 * 60 * 1000`. -/
def THREAD_TTL_MS : Int := 30 * 60 * 1000

/-- Source `function cleanExpiredThreads()`: delete every thread with
`now - lastAccess > THREAD_TTL_MS`.  `Date.now()` is the explicit `now`
argument; deleting while iterating a JS `Map` visits every entry, so the
sweep is a filter. -/
def cleanExpiredThreads (now : Int) (threads : Store) : Store :=
  threads.filter (fun p => !(decide (now - p.2.lastAccess > THREAD_TTL_MS)))

/-- Source `interface SearchResult { title; content; path }` from the search client. -/
structure SearchResult where
  title : String
  content : String
  path : String
deriving DecidableEq

/-- The per-document template inside `buildSearchContext`:
`<doc index="${i}">\n<title>...</title>\n<path>...</path>\n<content>...</content>\n</doc>`. -/
def docBlock (i : Nat) (r : SearchResult) : String :=
  "<doc index=\"" ++ toString i ++ "\">\n<title>" ++ r.title ++
    "</title>\n<path>" ++ r.path ++ "</path>\n<content>" ++ r.content ++
    "</content>\n</doc>"

/-- Source `function buildSearchContext(results)`. -/
def buildSearchContext (results : List SearchResult) : String :=
  if results.length = 0 then
    "<search_results>\nNo documents found for this query.\n</search_results>"
  else
    "<search_results>\n" ++
      String.intercalate "\n" (results.enum.map (fun p => docBlock (p.1 + 1) p.2)) ++
      "\n</search_results>"

/-- Source `function buildHistoryContext(history)`. -/
def buildHistoryContext (history : List HistoryEntry) : String :=
  if history.length = 0 then ""
  else
    "<conversation_history>\n" ++
      String.intercalate "\n"
        ((sliceLast MAX_HISTORY_ENTRIES history).map
          (fun e => roleString e.role ++ ": " ++ jsSlice e.text MAX_HISTORY_CHAR)) ++
      "\n</conversation_history>\n\n"

/-- The request body `{ messages, threadId }` of `POST /api/chat`.  `none`
models an absent field; JS falsiness of a present string is the `= ""` test. -/
structure ChatReq where
  messages : Option String
  threadId : Option String

/-- The projection `{ title: r.title, path: r.path }` used for `sources`. -/
structure Source where
  title : String
  path : String
deriving DecidableEq

/-- The JSON body the handler sends: an error payload or the success payload
`{ message, threadId, sources }`. -/
inductive ChatBody where
  | errorBody (error : String)
  | success (message : String) (threadId : String) (sources : List Source)
deriving DecidableEq

/-- The `sources` list of a body (empty for error payloads). -/
def ChatBody.sources : ChatBody → List Source
  | .errorBody _ => []
  | .success _ _ s => s

/-- Everything observable about one run of `chatHandler`: the HTTP status,
the JSON body, the session store afterwards, whether `searchNearDocs` was
called, and the `userContent` string passed to the model (`none` when the
model was never called). -/
structure ChatOutcome where
  status : Nat
  body : ChatBody
  store : Store
  searchCalled : Bool
  modelPrompt : Option String
deriving DecidableEq

/-- History resolution (`let history = []; if (threadId && threads.has(threadId)) ...`):
the stored entries when the id is truthy and present, else empty. -/
def resolveHistory (threads : Store) (tid : Option String) : List HistoryEntry :=
  match tid with
  | none => []
  | some t =>
      if t = "" then []
      else
        match Store.get threads t with
        | some d => d.entries
        | none => []

/-- The in-place `thread.lastAccess = Date.now()` bump on a truthy, present
thread id. -/
def touchThread (threads : Store) (tid : Option String) (now : Int) : Store :=
  match tid with
  | none => threads
  | some t =>
      if t = "" then threads
      else
        match Store.get threads t with
        | some d => Store.set threads t ⟨d.entries, now⟩
        | none => threads

/-- Models `threadId || "thread_" + Date.now()` (template literal). -/
def newThreadIdOf (tid : Option String) (now : Int) : String :=
  match tid with
  | none => "thread_" ++ toString now
  | some t => if t = "" then "thread_" ++ toString now else t

/-- Models `[...history, userEntry, assistantEntry].slice(-MAX_HISTORY_ENTRIES)`: the
updated entry list stored after a chat turn. -/
def chatTurn (history : List HistoryEntry) (u a : String) : List HistoryEntry :=
  sliceLast MAX_HISTORY_ENTRIES (history ++ [⟨.user, u⟩, ⟨.assistant, a⟩])

/-- The capacity check after the insert:
`if (threads.size > 100) { const oldestKey = threads.keys().next().value; if (oldestKey) threads.delete(oldestKey); }`.
Note `if (oldestKey)` is a falsiness test, so an empty-string first key
would be skipped (such a key is unreachable through the handler). -/
def enforceCapacity (s : Store) : Store :=
  if 100 < s.length then
    match s with
    | [] => []
    | (k, v) :: rest => if k = "" then (k, v) :: rest else rest
  else s

/-- Models `searchResults.filter(r => r.path).map(r => ({title: r.title, path: r.path}))`. -/
def sourcesOf (rs : List SearchResult) : List Source :=
  (rs.filter (fun r => !(decide (r.path = "")))).map (fun r => ⟨r.title, r.path⟩)

/-- Source `export async function chatHandler(req, res)`.

Parameters model the handler's environment: `configured` is
`anthropic !== null`; `search` is `searchNearDocs`; `model` maps the sent
`userContent` to the first text block of the response (`none` when the
response has no text block, in which case the fallback string is used);
`now` is `Date.now()`. -/
def chatHandler (configured : Bool) (search : String → List SearchResult)
    (model : String → Option String) (now : Int) (req : ChatReq)
    (threads : Store) : ChatOutcome :=
  match req.messages with
  | none => ⟨400, .errorBody "Message is required", threads, false, none⟩
  | some userMessage =>
    if userMessage = "" then
      ⟨400, .errorBody "Message is required", threads, false, none⟩
    else if configured = false then
      ⟨500, .errorBody "Anthropic API key not configured", threads, false, none⟩
    else
      let searchResults := search userMessage
      let history := resolveHistory threads req.threadId
      let threads1 := touchThread threads req.threadId now
      let userContent :=
        buildHistoryContext history ++ buildSearchContext searchResults ++
          "\n\n" ++ userMessage
      let assistantMessage := (model userContent).getD "No response generated."
      let newThreadId := newThreadIdOf req.threadId now
      let updatedEntries := chatTurn history userMessage assistantMessage
      let threads2 := Store.set threads1 newThreadId ⟨updatedEntries, now⟩
      let threads3 := enforceCapacity threads2
      ⟨200, .success assistantMessage newThreadId (sourcesOf searchResults),
        threads3, true, some userContent⟩

/-- A raw hit from the search engine, as `searchNearDocs` consumes it:
`hit.title`, `hit.content`, `hit._formatted?.content`, `hit.path`, each
possibly absent. -/
structure Hit where
  title : Option String
  content : Option String
  formattedContent : Option String
  path : Option String
deriving DecidableEq

/-- JS `a || b` on an optional string: the default when absent or empty. -/
def falsyOr (o : Option String) (d : String) : String :=
  match o with
  | none => d
  | some s => if s = "" then d else s

/-- Source `const MAX_CONTENT_LENGTH = 800`. -/
def MAX_CONTENT_LENGTH : Nat := 800

/-- The hit-mapping step of `searchNearDocs`:
`{ title: hit.title || "Untitled", content: (hit._formatted?.content || hit.content || "").slice(0, MAX_CONTENT_LENGTH), path: hit.path || "" }`.
The network query itself is the external engine; the gateway's own logic is
this map over the returned hits. -/
def searchNearDocs (hits : List Hit) : List SearchResult :=
  hits.map fun hit =>
    { title := falsyOr hit.title "Untitled"
      content := jsSlice (falsyOr hit.formattedContent (falsyOr hit.content "")) MAX_CONTENT_LENGTH
      path := falsyOr hit.path "" }

/-! ## Spec-side definitions (transcribed from the spec's words, for the
refinement claims about the context assembler). -/

/-- Spec-side history block (spec 4.2): take at most the last
`MAX_HISTORY_ENTRIES` entries, truncate each text to `MAX_HISTORY_CHAR`
characters, join as `role: text` lines, wrap in the delimiting block; the
empty history yields the empty string. -/
def historyBlockSpec (history : List HistoryEntry) : String :=
  match history with
  | [] => ""
  | _ =>
      "<conversation_history>\n" ++
        String.intercalate "\n"
          (((history.reverse.take MAX_HISTORY_ENTRIES).reverse).map
            (fun e => roleString e.role ++ ": " ++ jsSlice e.text MAX_HISTORY_CHAR)) ++
        "\n</conversation_history>\n\n"

/-- Spec-side doc blocks (spec 4.2): one structured block per result, the
index starting at 1 and increasing in the order received. -/
def specDocBlocks (i : Nat) : List SearchResult → List String
  | [] => []
  | r :: rest => docBlock i r :: specDocBlocks (i + 1) rest

/-- Spec-side search block (spec 4.2): zero results yield the single
explicit no-documents marker block; otherwise the doc blocks indexed from 1,
wrapped. -/
def searchBlockSpec (results : List SearchResult) : String :=
  match results with
  | [] => "<search_results>\nNo documents found for this query.\n</search_results>"
  | _ =>
      "<search_results>\n" ++
        String.intercalate "\n" (specDocBlocks 1 results) ++
        "\n</search_results>"

/-! ## The abstract per-session turn iteration (for the history invariant). -/

/-- Every entry ever appended over a list of (user text, assistant text)
turns, in append order. -/
def allEntries : List (String × String) → List HistoryEntry
  | [] => []
  | p :: rest => ⟨.user, p.1⟩ :: ⟨.assistant, p.2⟩ :: allEntries rest

/-- The stored history of one session after iterating the chat turns from a
fresh session. -/
def historyAfter (turns : List (String × String)) : List HistoryEntry :=
  turns.foldl (fun e p => chatTurn e p.1 p.2) []

/-! ## Helper lemmas. -/

theorem sliceLast_eq_reverse_take (n : Nat) (l : List α) :
    sliceLast n l = (l.reverse.take n).reverse :=
  List.rtake_eq_reverse_take_reverse ..

theorem length_sliceLast_le (n : Nat) (l : List α) :
    (sliceLast n l).length ≤ n := by
  simp [sliceLast_eq_reverse_take]

theorem sliceLast_append_sliceLast (n : Nat) (l m : List α) :
    sliceLast n (sliceLast n l ++ m) = sliceLast n (l ++ m) := by
  simp only [sliceLast_eq_reverse_take, List.reverse_append, List.reverse_reverse]
  rw [List.take_append_eq_append_take, List.take_append_eq_append_take, List.take_take,
    Nat.min_eq_left (Nat.sub_le ..)]

theorem mem_of_mem_sliceLast {n : Nat} {l : List α} {a : α}
    (h : a ∈ sliceLast n l) : a ∈ l :=
  (List.drop_sublist _ _).mem h

theorem foldl_chatTurn (turns : List (String × String)) (x : List HistoryEntry) :
    List.foldl (fun e p => chatTurn e p.1 p.2) (sliceLast MAX_HISTORY_ENTRIES x) turns
      = sliceLast MAX_HISTORY_ENTRIES (x ++ allEntries turns) := by
  induction turns generalizing x with
  | nil => simp [allEntries]
  | cons p rest ih =>
    have h1 : chatTurn (sliceLast MAX_HISTORY_ENTRIES x) p.1 p.2
        = sliceLast MAX_HISTORY_ENTRIES (x ++ [⟨.user, p.1⟩, ⟨.assistant, p.2⟩]) := by
      unfold chatTurn
      exact sliceLast_append_sliceLast ..
    rw [List.foldl_cons, h1, ih]
    simp [allEntries]

theorem buildHistoryContext_eq_spec (h : List HistoryEntry) :
    buildHistoryContext h = historyBlockSpec h := by
  cases h with
  | nil => rfl
  | cons e rest => simp [buildHistoryContext, historyBlockSpec, sliceLast_eq_reverse_take]

theorem enumFrom_map_docBlock (rs : List SearchResult) (n : Nat) :
    (List.enumFrom n rs).map (fun p => docBlock (p.1 + 1) p.2)
      = specDocBlocks (n + 1) rs := by
  induction rs generalizing n with
  | nil => rfl
  | cons r rest ih => simp [List.enumFrom, specDocBlocks, ih]

theorem buildSearchContext_eq_spec (rs : List SearchResult) :
    buildSearchContext rs = searchBlockSpec rs := by
  cases rs with
  | nil => rfl
  | cons r rest =>
    simp [buildSearchContext, searchBlockSpec, List.enum, enumFrom_map_docBlock,
      specDocBlocks]

example :
    historyAfter [("a", "b"), ("c", "d"), ("e", "f")]
      = [⟨.user, "c"⟩, ⟨.assistant, "d"⟩, ⟨.user, "e"⟩, ⟨.assistant, "f"⟩] := by
  decide

theorem clean_cons (now : Int) (p : String × ThreadData) (rest : Store) :
    cleanExpiredThreads now (p :: rest)
      = if now - p.2.lastAccess > THREAD_TTL_MS then cleanExpiredThreads now rest
        else p :: cleanExpiredThreads now rest := by
  by_cases h : now - p.2.lastAccess > THREAD_TTL_MS <;>
    simp [cleanExpiredThreads, List.filter_cons, h]

theorem get_clean_none (now : Int) (st : Store) (t : String)
    (h : ∀ p ∈ st, p.1 = t → THREAD_TTL_MS < now - p.2.lastAccess) :
    Store.get (cleanExpiredThreads now st) t = none := by
  induction st with
  | nil => rfl
  | cons p rest ih =>
    have ht : ∀ q ∈ rest, q.1 = t → THREAD_TTL_MS < now - q.2.lastAccess :=
      fun q hq => h q (List.mem_cons_of_mem _ hq)
    rw [clean_cons]
    by_cases hk : p.1 = t
    · rw [if_pos (h p (List.mem_cons_self ..) hk)]
      exact ih ht
    · by_cases hexp : now - p.2.lastAccess > THREAD_TTL_MS
      · rw [if_pos hexp]
        exact ih ht
      · rw [if_neg hexp]
        obtain ⟨k, d⟩ := p
        rw [Store.get, if_neg hk]
        exact ih ht

theorem mem_store_set {s : Store} {k : String} {v : ThreadData}
    {p : String × ThreadData} (hp : p ∈ Store.set s k v) : p = (k, v) ∨ p ∈ s := by
  induction s with
  | nil =>
    rw [Store.set] at hp
    exact Or.inl (List.mem_singleton.1 hp)
  | cons q rest ih =>
    obtain ⟨k', v'⟩ := q
    by_cases h : k' = k
    · rw [Store.set, if_pos h] at hp
      rcases List.mem_cons.1 hp with h1 | h1
      · exact Or.inl h1
      · exact Or.inr (List.mem_cons_of_mem _ h1)
    · rw [Store.set, if_neg h] at hp
      rcases List.mem_cons.1 hp with h1 | h1
      · exact Or.inr (h1 ▸ List.mem_cons_self ..)
      · rcases ih h1 with h2 | h2
        · exact Or.inl h2
        · exact Or.inr (List.mem_cons_of_mem _ h2)

theorem mem_enforceCapacity {s : Store} {p : String × ThreadData}
    (hp : p ∈ enforceCapacity s) : p ∈ s := by
  unfold enforceCapacity at hp
  split at hp
  · split at hp
    · exact hp
    · split at hp
      · exact hp
      · exact List.mem_cons_of_mem _ hp
  · exact hp

theorem freshId_ne_empty (x : String) : "thread_" ++ x ≠ "" := by
  intro h
  have hl : ("thread_" ++ x).length = 0 := by rw [h]; rfl
  rw [String.length_append] at hl
  have h7 : ("thread_" : String).length = 7 := rfl
  rw [h7] at hl
  omega

theorem newThreadIdOf_ne_empty (tid : Option String) (now : Int) :
    newThreadIdOf tid now ≠ "" := by
  cases tid with
  | none => exact freshId_ne_empty _
  | some t =>
    by_cases h : t = ""
    · rw [newThreadIdOf, if_pos h]
      exact freshId_ne_empty _
    · rw [newThreadIdOf, if_neg h]
      exact h

theorem touchThread_keys {st : Store} {tid : Option String} {now : Int}
    (hk : ∀ q ∈ st, q.1 ≠ "") :
    ∀ p ∈ touchThread st tid now, p.1 ≠ "" := by
  intro p hp
  cases tid with
  | none => exact hk p hp
  | some t =>
    by_cases h : t = ""
    · rw [touchThread, if_pos h] at hp
      exact hk p hp
    · rw [touchThread, if_neg h] at hp
      cases hg : Store.get st t with
      | none => rw [hg] at hp; exact hk p hp
      | some d =>
          rw [hg] at hp
          rcases mem_store_set hp with h1 | h1
          · rw [h1]; exact h
          · exact hk p h1

theorem enforceCapacity_eq (s : Store) (hk : ∀ p ∈ s, p.1 ≠ "") :
    enforceCapacity s = if 100 < s.length then s.tail else s := by
  unfold enforceCapacity
  by_cases h : 100 < s.length
  · rw [if_pos h, if_pos h]
    cases s with
    | nil => simp at h
    | cons q rest =>
      obtain ⟨k, v⟩ := q
      have hne : k ≠ "" := hk (k, v) (List.mem_cons_self ..)
      simp [hne]
  · rw [if_neg h, if_neg h]

theorem chatHandler_keys (cfg : Bool) (search : String → List SearchResult)
    (model : String → Option String) (now : Int) (req : ChatReq) (st : Store)
    (hk : ∀ p ∈ st, p.1 ≠ "") :
    ∀ p ∈ (chatHandler cfg search model now req st).store, p.1 ≠ "" := by
  obtain ⟨msgs, tid⟩ := req
  intro p hp
  cases msgs with
  | none =>
    simp only [chatHandler] at hp
    exact hk p hp
  | some m =>
    simp only [chatHandler] at hp
    by_cases hm : m = ""
    · rw [if_pos hm] at hp
      exact hk p hp
    · rw [if_neg hm] at hp
      by_cases hcfg : cfg = false
      · rw [if_pos hcfg] at hp
        exact hk p hp
      · rw [if_neg hcfg] at hp
        rcases mem_store_set (mem_enforceCapacity hp) with h1 | h1
        · rw [h1]
          exact newThreadIdOf_ne_empty tid now
        · exact touchThread_keys hk p h1

theorem jsSlice_length_le (s : String) (n : Nat) : (jsSlice s n).length ≤ n := by
  simp only [jsSlice, String.length, List.length_take]
  omega

/-! ## Claim theorems. -/

/-- C2: after any sequence of completed chat turns on a session, the stored
history has length at most 4 and is exactly the most recent appended
entries in their append order (oldest dropped first); a single turn's
update is bounded by 4 from any starting history. -/
theorem claim_history_bounded_recent :
    (∀ turns : List (String × String),
        historyAfter turns = sliceLast MAX_HISTORY_ENTRIES (allEntries turns))
    ∧ (∀ turns : List (String × String), (historyAfter turns).length ≤ 4)
    ∧ ∀ (h : List HistoryEntry) (u a : String), (chatTurn h u a).length ≤ 4 := by
  have key : ∀ turns : List (String × String),
      historyAfter turns = sliceLast MAX_HISTORY_ENTRIES (allEntries turns) := by
    intro turns
    simpa [historyAfter, sliceLast] using foldl_chatTurn turns []
  refine ⟨key, fun turns => ?_, fun h u a => ?_⟩
  · rw [key]
    exact length_sliceLast_le MAX_HISTORY_ENTRIES _
  · exact length_sliceLast_le MAX_HISTORY_ENTRIES _

/-- C4: the formatted history block takes at most the last 4 entries,
truncates each text to 200 characters, renders role-prefixed lines in the
delimiting wrapper, and is the empty string on empty history (refinement
against the spec-side formatter); entries stored by a chat turn keep their
full untruncated texts. -/
theorem claim_history_formatting :
    (∀ h : List HistoryEntry, buildHistoryContext h = historyBlockSpec h)
    ∧ buildHistoryContext [] = ""
    ∧ ∀ (h : List HistoryEntry) (u a : String) (e : HistoryEntry),
        e ∈ chatTurn h u a → e ∈ h ∨ e = ⟨.user, u⟩ ∨ e = ⟨.assistant, a⟩ := by
  refine ⟨buildHistoryContext_eq_spec, rfl, fun h u a e he => ?_⟩
  rcases List.mem_append.1 (mem_of_mem_sliceLast he) with h1 | h1
  · exact Or.inl h1
  · rcases List.mem_cons.1 h1 with h2 | h2
    · exact Or.inr (Or.inl h2)
    · exact Or.inr (Or.inr (List.mem_singleton.1 h2))

/-- Witness for C4 at a concrete chat turn. -/
theorem claim_history_formatting_witness :
    HistoryEntry.mk .user "hello" ∈ ([] : List HistoryEntry)
      ∨ HistoryEntry.mk .user "hello" = HistoryEntry.mk .user "hello"
      ∨ HistoryEntry.mk .user "hello" = HistoryEntry.mk .assistant "ok" :=
  claim_history_formatting.2.2 [] "hello" "ok" ⟨.user, "hello"⟩ (by decide)

/-- C5: zero search results produce exactly the literal no-documents marker
block — never an empty or wrapper-only block — and a non-empty list yields
one doc block per result, indexed from 1, in the order received
(refinement against the spec-side formatter). -/
theorem claim_search_formatting :
    (∀ rs : List SearchResult, buildSearchContext rs = searchBlockSpec rs)
    ∧ buildSearchContext []
        = "<search_results>\nNo documents found for this query.\n</search_results>" :=
  ⟨buildSearchContext_eq_spec, rfl⟩

/-- C6: a request body without the messages field yields status 400 with
the error payload, no search or model call, and an untouched store, for
every configuration — so the unconfigured-model 500 check is never reached
without a message. -/
theorem claim_missing_message :
    ∀ (cfg : Bool) (search : String → List SearchResult)
      (model : String → Option String) (now : Int) (tid : Option String)
      (st : Store),
      chatHandler cfg search model now ⟨none, tid⟩ st
        = ⟨400, .errorBody "Message is required", st, false, none⟩ :=
  fun _ _ _ _ _ _ => rfl

/-- C7: the periodic sweep removes exactly the records with
now - lastAccess strictly above the TTL, keeps every other record, and
preserves their relative order. -/
theorem claim_sweep :
    ∀ (now : Int) (st : Store),
      (∀ k d, (k, d) ∈ cleanExpiredThreads now st
          ↔ ((k, d) ∈ st ∧ ¬(now - d.lastAccess > THREAD_TTL_MS)))
      ∧ (cleanExpiredThreads now st).Sublist st := by
  intro now st
  refine ⟨fun k d => ?_, List.filter_sublist _⟩
  simp [cleanExpiredThreads, List.mem_filter]

/-- C3: when the store holds more than 100 records right after the insert,
exactly one record — the first in iteration order — is removed, and
otherwise none, provided no key is the empty string; the handler preserves
that key invariant from any store satisfying it. -/
theorem claim_capacity :
    (∀ s : Store, (∀ p ∈ s, p.1 ≠ "") →
        enforceCapacity s = if 100 < s.length then s.tail else s)
    ∧ ∀ (cfg : Bool) (search : String → List SearchResult)
        (model : String → Option String) (now : Int) (req : ChatReq) (st : Store),
        (∀ p ∈ st, p.1 ≠ "") →
        ∀ p ∈ (chatHandler cfg search model now req st).store, p.1 ≠ "" :=
  ⟨enforceCapacity_eq, chatHandler_keys⟩

/-- Witness for C3 at a concrete 102-record store. -/
theorem claim_capacity_witness :
    enforceCapacity (("b", ⟨[], 0⟩) :: List.replicate 101 ("a", (⟨[], 0⟩ : ThreadData)))
      = if 100 < (("b", (⟨[], 0⟩ : ThreadData))
            :: List.replicate 101 ("a", (⟨[], 0⟩ : ThreadData))).length
        then (("b", (⟨[], 0⟩ : ThreadData))
            :: List.replicate 101 ("a", (⟨[], 0⟩ : ThreadData))).tail
        else ("b", (⟨[], 0⟩ : ThreadData))
            :: List.replicate 101 ("a", (⟨[], 0⟩ : ThreadData)) :=
  claim_capacity.1 _ (by decide)

/-- C8: the sources field of a successful chat response is exactly the
subsequence of search results with a non-empty path, in the original
order, projected to title and path. -/
theorem claim_sources :
    ∀ (search : String → List SearchResult) (model : String → Option String)
      (now : Int) (tid : Option String) (st : Store) (m : String), m ≠ "" →
      (chatHandler true search model now ⟨some m, tid⟩ st).status = 200
      ∧ ((chatHandler true search model now ⟨some m, tid⟩ st).body).sources
          = ((search m).filter (fun r => !(decide (r.path = "")))).map
              (fun r => ⟨r.title, r.path⟩) := by
  intro search model now tid st m hm
  constructor
  · simp [chatHandler, hm]
  · simp [chatHandler, hm, ChatBody.sources, sourcesOf]

/-- Witness for C8 at a concrete result list with one empty path. -/
theorem claim_sources_witness :
    (chatHandler true (fun _ => [⟨"T", "c", "p"⟩, ⟨"U", "d", ""⟩])
        (fun _ => none) 0 ⟨some "q", none⟩ []).status = 200
    ∧ ((chatHandler true (fun _ => [⟨"T", "c", "p"⟩, ⟨"U", "d", ""⟩])
        (fun _ => none) 0 ⟨some "q", none⟩ []).body).sources
        = (([⟨"T", "c", "p"⟩, ⟨"U", "d", ""⟩] : List SearchResult).filter
            (fun r => !(decide (r.path = "")))).map (fun r => ⟨r.title, r.path⟩) :=
  claim_sources _ _ 0 none [] "q" (by decide)

/-- C9: every result produced by the search gateway has content of length
at most 800 characters, and the context assembler's doc block embeds the
content verbatim, with no further truncation. -/
theorem claim_content_cap :
    (∀ (hits : List Hit) (r : SearchResult),
        r ∈ searchNearDocs hits → r.content.length ≤ MAX_CONTENT_LENGTH)
    ∧ ∀ (i : Nat) (r : SearchResult),
        docBlock i r
          = "<doc index=\"" ++ toString i ++ "\">\n<title>" ++ r.title ++
            "</title>\n<path>" ++ r.path ++ "</path>\n<content>" ++ r.content ++
            "</content>\n</doc>" := by
  refine ⟨fun hits r hr => ?_, fun i r => rfl⟩
  simp only [searchNearDocs, List.mem_map] at hr
  obtain ⟨h, -, rfl⟩ := hr
  exact jsSlice_length_le _ _

/-- Witness for C9 at a concrete hit. -/
theorem claim_content_cap_witness :
    (SearchResult.mk "Untitled" "abc" "").content.length ≤ MAX_CONTENT_LENGTH :=
  claim_content_cap.1 [⟨none, some "abc", none, none⟩] ⟨"Untitled", "abc", ""⟩
    (by decide)

/-- C10: a present but empty messages field is rejected exactly like an
absent one — status 400, the same error payload, no search or model call,
store unchanged. -/
theorem claim_empty_message :
    ∀ (cfg : Bool) (search : String → List SearchResult)
      (model : String → Option String) (now : Int) (tid : Option String)
      (st : Store),
      chatHandler cfg search model now ⟨some "", tid⟩ st
        = ⟨400, .errorBody "Message is required", st, false, none⟩ :=
  fun _ _ _ _ _ _ => rfl

/-- C1 as stated is false: between sweeps, a chat request supplying the id
of a session whose age exceeds the TTL still observes its stored entries —
the prompt sent to the model differs from the nonexistent-session prompt. -/
theorem claim_expiry_counterexample :
    (1800001 : Int) - 0 > THREAD_TTL_MS
    ∧ (chatHandler true (fun _ => []) (fun _ => some "ok") 1800001
          ⟨some "hi", some "t"⟩ [("t", ⟨[⟨.user, "old"⟩], 0⟩)]).modelPrompt
        ≠ (chatHandler true (fun _ => []) (fun _ => some "ok") 1800001
          ⟨some "hi", some "t"⟩ []).modelPrompt := by
  decide

/-- C1 amended: once the periodic sweep has run at a time when every record
under the supplied threadId has age strictly above the TTL, a subsequent
chat request treats the history as empty, exactly as for a nonexistent
session. -/
theorem claim_expiry_after_sweep
    (search : String → List SearchResult) (model : String → Option String)
    (sweepNow reqNow : Int) (st : Store) (t m : String) (hm : m ≠ "")
    (hexp : ∀ p ∈ st, p.1 = t → THREAD_TTL_MS < sweepNow - p.2.lastAccess) :
    (chatHandler true search model reqNow ⟨some m, some t⟩
        (cleanExpiredThreads sweepNow st)).modelPrompt
      = (chatHandler true search model reqNow ⟨some m, some t⟩ []).modelPrompt := by
  have hget := get_clean_none sweepNow st t hexp
  by_cases ht : t = ""
  · simp [chatHandler, hm, resolveHistory, ht]
  · simp [chatHandler, hm, resolveHistory, ht, hget, Store.get]

/-- Witness for the amended C1 at a concrete expired record. -/
theorem claim_expiry_after_sweep_witness :
    (chatHandler true (fun _ => []) (fun _ => some "ok") 1800001
        ⟨some "hi", some "t"⟩
        (cleanExpiredThreads 1800001 [("t", ⟨[⟨.user, "old"⟩], 0⟩)])).modelPrompt
      = (chatHandler true (fun _ => []) (fun _ => some "ok") 1800001
        ⟨some "hi", some "t"⟩ []).modelPrompt :=
  claim_expiry_after_sweep _ _ 1800001 1800001 _ "t" "hi" (by decide) (by decide)

end Meili
